import Mathlib

/-
Verification development for the try-swift-2016 text tools: two line
oriented transforms over a markdown slide deck.  A text line is modelled
as a list of characters; each Python function is embedded as a Lean
function over such lines.
-/

/-- A text line of the document. -/
abbrev Line := List Char

/-
Embedding of remove_transcript.py: keep every line that the anchored
regex (caret as first character, or the literal autoscale: marker at the
start) does not match.
-/

/-- Test of the regex in remove_transcript.py line 4: the line starts
with a caret, or starts with the literal autoscale marker. -/
def isMarker (l : Line) : Bool :=
  List.isPrefixOf ("^".toList) l || List.isPrefixOf ("autoscale:".toList) l

/-- Embedding of remove_transcript.py lines 3 to 5: the filter keeps
every line the marker regex does not match. -/
def removeTranscript (lines : List Line) : List Line :=
  lines.filter (fun line => !(isMarker line))

/-
Embedding of update_time.py.  The regexes are embedded as deterministic
scanners: a greedy digit group followed by a non digit literal is
equivalent to taking the maximal leading digit run, both on success and
on failure, because giving back a digit would leave a digit where the
literal is required.
-/

/-- One literal character of a regex: consume it or fail. -/
def expectChar (c : Char) : Line → Option Line
  | x :: xs => if x = c then some xs else none
  | [] => none

/-- A digit group of the regex, one or more characters: the maximal
leading run of decimal digits, failing when it is empty. -/
def digits1 (l : Line) : Option (Line × Line) :=
  if l.takeWhile Char.isDigit = [] then none
  else some (l.takeWhile Char.isDigit, l.dropWhile Char.isDigit)

/-- Numeric value of a digit string, as the int conversion on
update_time.py line 7 reads it. -/
def digitsVal (d : Line) : Nat :=
  d.foldl (fun a c => a * 10 + (c.toNat - 48)) 0

/-- Embedding of the anchored regex on update_time.py line 5: caret,
space, open paren, four digit groups separated by colon, comma space,
colon, then a close paren.  Returns groups 3 and 4 on success. -/
def matchTimed (l : Line) : Option (Line × Line) :=
  (expectChar '^' l).bind fun r1 =>
  (expectChar ' ' r1).bind fun r2 =>
  (expectChar '(' r2).bind fun r3 =>
  (digits1 r3).bind fun p1 =>
  (expectChar ':' p1.2).bind fun q1 =>
  (digits1 q1).bind fun p2 =>
  (expectChar ',' p2.2).bind fun q2 =>
  (expectChar ' ' q2).bind fun q3 =>
  (digits1 q3).bind fun p3 =>
  (expectChar ':' p3.2).bind fun q4 =>
  (digits1 q4).bind fun p4 =>
  (expectChar ')' p4.2).bind fun _ =>
  some (p3.1, p4.1)

/-- Embedding of the anchored regex on update_time.py line 8: the line
starts with caret, space, open paren. -/
def startsTimedMark (l : Line) : Bool :=
  List.isPrefixOf ("^ (".toList) l

/-- Embedding of update_time.py lines 3 to 10, the function foo: the
time read from groups 3 and 4 when the full pattern matches (None
otherwise), the line itself, and the list of diagnostic lines printed
while classifying it. -/
def foo (line : Line) : Option Nat × Line × List Line :=
  match matchTimed line with
  | some g => (some (digitsVal g.1 * 60 + digitsVal g.2), line, [])
  | none =>
    if startsTimedMark line then (none, line, ["ERROR: ".toList ++ line])
    else (none, line, [])

/-- Core of the decimal rendering, structural in a fuel argument so
that it evaluates inside the kernel; the fuel is always sufficient at
the call site. -/
def natCharsCore (fuel : Nat) (n : Nat) (acc : Line) : Line :=
  match fuel with
  | 0 => acc
  | fuel + 1 =>
    if n < 10 then Nat.digitChar n :: acc
    else natCharsCore fuel (n / 10) (Nat.digitChar (n % 10) :: acc)

/-- Decimal digit characters of n, most significant first, as the
percent d conversion on update_time.py line 20 prints a number. -/
def natChars (n : Nat) : Line :=
  natCharsCore (n + 1) n []

/-- The percent 02d conversion on update_time.py line 20: decimal, zero
padded on the left to width two. -/
def pad2 (n : Nat) : Line :=
  List.replicate (2 - (natChars n).length) '0' ++ natChars n

/-- The replacement text built on update_time.py line 20: caret, space,
open paren, the minutes in percent d form, a colon, the seconds in
percent 02d form. -/
def fmtRepl (minutes seconds : Nat) : Line :=
  '^' :: ' ' :: '(' :: natChars minutes ++ ':' :: pad2 seconds

/-- Embedding of the anchored sub regex on update_time.py line 20:
caret, space, open paren, digit group, colon, digit group.  Returns the
remainder of the line after group 2. -/
def matchStart (l : Line) : Option Line :=
  (expectChar '^' l).bind fun r1 =>
  (expectChar ' ' r1).bind fun r2 =>
  (expectChar '(' r2).bind fun r3 =>
  (digits1 r3).bind fun p1 =>
  (expectChar ':' p1.2).bind fun q1 =>
  (digits1 q1).bind fun p2 =>
  some p2.2

/-- Embedding of the re.sub call on update_time.py line 20: replace the
matched leading portion with the formatted clock, and leave a line the
anchored pattern does not match unchanged. -/
def subStart (minutes seconds : Nat) (line : Line) : Line :=
  match matchStart line with
  | some rest => fmtRepl minutes seconds ++ rest
  | none => line

/-- Embedding of one iteration of the loop on update_time.py lines 16
to 23: the truthiness test on time (false for None and for zero), the
floor division and modulus of the clock, the sub, and the clock
update. -/
def stepLine (currentTime : Nat) (line : Line) : Nat × Line :=
  match (foo line).1 with
  | some time =>
    if time = 0 then (currentTime, line)
    else (currentTime + time, subStart (currentTime / 60) (currentTime % 60) line)
  | none => (currentTime, line)

/-- Embedding of the scan on update_time.py lines 15 to 23, threading
current time through every line: returns the rewritten lines and the
final clock. -/
def scanFrom (currentTime : Nat) : List Line → List Line × Nat
  | [] => ([], currentTime)
  | line :: rest =>
    let s := stepLine currentTime line
    let r := scanFrom s.1 rest
    (s.2 :: r.1, r.2)

/-- The whole transform of update_time.py: the clock starts at 0. -/
def updateTime (lines : List Line) : List Line × Nat :=
  scanFrom 0 lines

/-- All diagnostic lines printed while mapping foo over the input, on
update_time.py line 14, in input order. -/
def diagLines : List Line → List Line
  | [] => []
  | l :: ls => (foo l).2.2 ++ diagLines ls

/-- The shape of a line accepted by the full timed regex: the marker,
four digit groups with their separators, the close paren, then an
arbitrary remainder. -/
def timedLine (d1 d2 d3 d4 rest : Line) : Line :=
  '^' :: ' ' :: '(' ::
    (d1 ++ ':' :: (d2 ++ ',' :: ' ' :: (d3 ++ ':' :: (d4 ++ ')' :: rest))))

/-- A nonempty string of decimal digit characters, the language of one
digit group. -/
def allDigits (d : Line) : Prop :=
  d ≠ [] ∧ ∀ x ∈ d, Char.isDigit x = true

example : matchTimed ("^ (0:00, 1:30) intro".toList) = some (['1'], ['3', '0']) := rfl
example : matchTimed ("^ (1:2, abc)".toList) = none := rfl
example : stepLine 0 ("^ (0:00, 1:30) intro".toList) = (90, "^ (0:00, 1:30) intro".toList) := rfl
example : stepLine 90 ("^ (1:30, 0:45) next".toList) = (135, "^ (1:30, 0:45) next".toList) := rfl
example : stepLine 0 ("^ (1:00, 0:00)".toList) = (0, "^ (1:00, 0:00)".toList) := rfl
example : fmtRepl (65 / 60) (65 % 60) = "^ (1:05".toList := rfl
example : diagLines ["^ (1:2, abc)".toList] = ["ERROR: ^ (1:2, abc)".toList] := rfl

/-
Helper lemmas about greedy digit groups and the timed line shape.
-/

theorem takeWhile_digits (d : Line) (c : Char) (r : Line)
    (hd : ∀ x ∈ d, Char.isDigit x = true) (hc : Char.isDigit c = false) :
    List.takeWhile Char.isDigit (d ++ c :: r) = d := by
  induction d with
  | nil => simp [List.takeWhile_cons, hc]
  | cons a d ih =>
    have ha : Char.isDigit a = true := hd a (List.mem_cons_self a d)
    have hd2 : ∀ x ∈ d, Char.isDigit x = true :=
      fun x hx => hd x (List.mem_cons_of_mem a hx)
    simp [List.takeWhile_cons, ha, ih hd2]

theorem dropWhile_digits (d : Line) (c : Char) (r : Line)
    (hd : ∀ x ∈ d, Char.isDigit x = true) (hc : Char.isDigit c = false) :
    List.dropWhile Char.isDigit (d ++ c :: r) = c :: r := by
  induction d with
  | nil => simp [List.dropWhile_cons, hc]
  | cons a d ih =>
    have ha : Char.isDigit a = true := hd a (List.mem_cons_self a d)
    have hd2 : ∀ x ∈ d, Char.isDigit x = true :=
      fun x hx => hd x (List.mem_cons_of_mem a hx)
    simp [List.dropWhile_cons, ha, ih hd2]

theorem digits1_group (d : Line) (c : Char) (r : Line)
    (h : allDigits d) (hc : Char.isDigit c = false) :
    digits1 (d ++ c :: r) = some (d, c :: r) := by
  unfold digits1
  rw [takeWhile_digits d c r h.2 hc, dropWhile_digits d c r h.2 hc]
  simp [h.1]

theorem matchTimed_timedLine (d1 d2 d3 d4 rest : Line)
    (h1 : allDigits d1) (h2 : allDigits d2) (h3 : allDigits d3) (h4 : allDigits d4) :
    matchTimed (timedLine d1 d2 d3 d4 rest) = some (d3, d4) := by
  have e1 := digits1_group d1 ':'
    (d2 ++ ',' :: ' ' :: (d3 ++ ':' :: (d4 ++ ')' :: rest))) h1 (by decide)
  have e2 := digits1_group d2 ','
    (' ' :: (d3 ++ ':' :: (d4 ++ ')' :: rest))) h2 (by decide)
  have e3 := digits1_group d3 ':' (d4 ++ ')' :: rest) h3 (by decide)
  have e4 := digits1_group d4 ')' rest h4 (by decide)
  simp [matchTimed, timedLine, expectChar, e1, e2, e3, e4]

theorem matchStart_timedLine (d1 d2 d3 d4 rest : Line)
    (h1 : allDigits d1) (h2 : allDigits d2) :
    matchStart (timedLine d1 d2 d3 d4 rest) =
      some (',' :: ' ' :: (d3 ++ ':' :: (d4 ++ ')' :: rest))) := by
  have e1 := digits1_group d1 ':'
    (d2 ++ ',' :: ' ' :: (d3 ++ ':' :: (d4 ++ ')' :: rest))) h1 (by decide)
  have e2 := digits1_group d2 ','
    (' ' :: (d3 ++ ':' :: (d4 ++ ')' :: rest))) h2 (by decide)
  simp [matchStart, timedLine, expectChar, e1, e2]

theorem subStart_timedLine (m s : Nat) (d1 d2 d3 d4 rest : Line)
    (h1 : allDigits d1) (h2 : allDigits d2) :
    subStart m s (timedLine d1 d2 d3 d4 rest) =
      timedLine (natChars m) (pad2 s) d3 d4 rest := by
  unfold subStart
  rw [matchStart_timedLine d1 d2 d3 d4 rest h1 h2]
  simp [fmtRepl, timedLine]

theorem foo_of_matchTimed (line g3 g4 : Line)
    (hm : matchTimed line = some (g3, g4)) :
    foo line = (some (digitsVal g3 * 60 + digitsVal g4), line, []) := by
  simp [foo, hm]

theorem stepLine_timedLine (c : Nat) (d1 d2 d3 d4 rest : Line)
    (h1 : allDigits d1) (h2 : allDigits d2) (h3 : allDigits d3) (h4 : allDigits d4) :
    stepLine c (timedLine d1 d2 d3 d4 rest) =
      if digitsVal d3 * 60 + digitsVal d4 = 0 then
        (c, timedLine d1 d2 d3 d4 rest)
      else
        (c + (digitsVal d3 * 60 + digitsVal d4),
         timedLine (natChars (c / 60)) (pad2 (c % 60)) d3 d4 rest) := by
  have hm := matchTimed_timedLine d1 d2 d3 d4 rest h1 h2 h3 h4
  have hf := foo_of_matchTimed _ d3 d4 hm
  by_cases hz : digitsVal d3 * 60 + digitsVal d4 = 0
  · simp [stepLine, hf, hz]
  · simp [stepLine, hf, hz, subStart_timedLine (c / 60) (c % 60) d1 d2 d3 d4 rest h1 h2]

theorem stepLine_of_no_match (c : Nat) (line : Line)
    (hm : matchTimed line = none) :
    stepLine c line = (c, line) := by
  by_cases hs : startsTimedMark line
  · simp [stepLine, foo, hm, hs]
  · simp [stepLine, foo, hm, hs]

/-
Lemmas about the decimal rendering.
-/

theorem natCharsCore_small (fuel n : Nat) (acc : Line)
    (h10 : n < 10) (hf : 0 < fuel) :
    natCharsCore fuel n acc = Nat.digitChar n :: acc := by
  cases fuel with
  | zero => omega
  | succ fuel => simp [natCharsCore, h10]

theorem natCharsCore_head_ne_zero :
    ∀ (fuel n : Nat) (acc : Line), n < fuel → n ≠ 0 →
      (natCharsCore fuel n acc).head? ≠ some ('0') := by
  intro fuel
  induction fuel with
  | zero => intro n acc h; omega
  | succ fuel ih =>
    intro n acc hlt hne
    by_cases h10 : n < 10
    · rw [natCharsCore_small (fuel + 1) n acc h10 (by omega)]
      have h1 : 1 ≤ n := by omega
      simp only [List.head?_cons, ne_eq, Option.some.injEq]
      interval_cases n <;> decide
    · show (natCharsCore (fuel + 1) n acc).head? ≠ some ('0')
      have : natCharsCore (fuel + 1) n acc =
          natCharsCore fuel (n / 10) (Nat.digitChar (n % 10) :: acc) := by
        simp [natCharsCore, h10]
      rw [this]
      exact ih (n / 10) _ (by omega) (by omega)

theorem natChars_head_ne_zero (n : Nat) (hn : n ≠ 0) :
    (natChars n).head? ≠ some ('0') :=
  natCharsCore_head_ne_zero (n + 1) n [] (by omega) hn

theorem natChars_len_one (n : Nat) (h : n < 10) :
    (natChars n).length = 1 := by
  rw [natChars, natCharsCore_small (n + 1) n [] h (by omega)]
  rfl

theorem natChars_len_two (n : Nat) (hlo : 10 ≤ n) (hhi : n < 100) :
    (natChars n).length = 2 := by
  have h1 : natChars n = natCharsCore n (n / 10) [Nat.digitChar (n % 10)] := by
    simp [natChars, natCharsCore, Nat.not_lt.mpr hlo]
  rw [h1, natCharsCore_small n (n / 10) _ (by omega) (by omega)]
  rfl

theorem pad2_length (n : Nat) (h : n < 100) : (pad2 n).length = 2 := by
  unfold pad2
  by_cases h10 : n < 10
  · rw [List.length_append, natChars_len_one n h10, List.length_replicate]
  · rw [List.length_append, natChars_len_two n (by omega) h, List.length_replicate]

/-
Lemmas about the scan.
-/

theorem scanFrom_length (c : Nat) (ls : List Line) :
    (scanFrom c ls).1.length = ls.length := by
  induction ls generalizing c with
  | nil => rfl
  | cons l ls ih => simp [scanFrom, ih]

theorem stepLine_clock_le (c : Nat) (line : Line) :
    c ≤ (stepLine c line).1 := by
  unfold stepLine
  cases h : (foo line).1 with
  | none => simp
  | some t =>
    by_cases ht : t = 0
    · simp [ht]
    · simp [ht]

theorem scanFrom_clock_le (c : Nat) (ls : List Line) :
    c ≤ (scanFrom c ls).2 := by
  induction ls generalizing c with
  | nil => simp [scanFrom]
  | cons l ls ih =>
    calc c ≤ (stepLine c l).1 := stepLine_clock_le c l
    _ ≤ (scanFrom (stepLine c l).1 ls).2 := ih (stepLine c l).1
    _ = (scanFrom c (l :: ls)).2 := rfl

/-
The claims.
-/

/-- Claim C1, counterexample: the line with start time 1:00 and end
time 0:00 matches the full timed pattern, yet at clock 0 the scan
leaves it unchanged instead of rewriting its start time to 0:00, and
the unchanged line differs from the rewritten one; the truthiness test
on update_time.py line 17 treats a zero duration like None. -/
theorem C1_cex :
    matchTimed ("^ (1:00, 0:00)".toList) = some (['0'], ['0', '0']) ∧
    stepLine 0 ("^ (1:00, 0:00)".toList) = (0, "^ (1:00, 0:00)".toList) ∧
    "^ (1:00, 0:00)".toList ≠ "^ (0:00, 0:00)".toList := by
  exact ⟨rfl, rfl, by decide⟩

/-- Claim C1 (amended): for every line of the full timed shape whose
duration from groups 3 and 4 is nonzero, the normalizer outputs the
line with the leading start time replaced by the clock rendering, the
remainder from the comma onward untouched, and advances the clock by
exactly that duration; a matching line whose duration is zero passes
through unchanged and the clock does not advance. -/
theorem C1_thm (c : Nat) (d1 d2 d3 d4 rest : Line)
    (h1 : allDigits d1) (h2 : allDigits d2) (h3 : allDigits d3) (h4 : allDigits d4) :
    (digitsVal d3 * 60 + digitsVal d4 ≠ 0 →
      stepLine c (timedLine d1 d2 d3 d4 rest) =
        (c + (digitsVal d3 * 60 + digitsVal d4),
         timedLine (natChars (c / 60)) (pad2 (c % 60)) d3 d4 rest)) ∧
    (digitsVal d3 * 60 + digitsVal d4 = 0 →
      stepLine c (timedLine d1 d2 d3 d4 rest) = (c, timedLine d1 d2 d3 d4 rest)) := by
  constructor
  · intro hz
    rw [stepLine_timedLine c d1 d2 d3 d4 rest h1 h2 h3 h4, if_neg hz]
  · intro hz
    rw [stepLine_timedLine c d1 d2 d3 d4 rest h1 h2 h3 h4, if_pos hz]

/-- Claim C1 witness: the amended statement applied at clock 90 to the
line with start 1:30, end 0:45 and trailing text. -/
theorem C1_thm_witness :
    stepLine 90 (timedLine ['1'] ['3', '0'] ['0'] ['4', '5'] (" next".toList)) =
      (135, timedLine (natChars (90 / 60)) (pad2 (90 % 60)) ['0'] ['4', '5'] (" next".toList)) := by
  have h := (C1_thm 90 ['1'] ['3', '0'] ['0'] ['4', '5'] (" next".toList)
    ⟨by decide, by decide⟩ ⟨by decide, by decide⟩ ⟨by decide, by decide⟩
    ⟨by decide, by decide⟩).1 (by decide)
  rw [h]
  decide

/-- Claim C2: the filter output is exactly the subsequence of the
input made of the lines matching neither marker pattern: it is a
sublist of the input (so order is preserved and each kept line is the
input line itself), no marker line survives, every occurrence of every
non marker line survives, and every marker line is absent. -/
theorem C2_thm (ls : List Line) :
    List.Sublist (removeTranscript ls) ls ∧
    (∀ l ∈ removeTranscript ls, isMarker l = false) ∧
    (∀ l : Line, isMarker l = false →
      List.count l (removeTranscript ls) = List.count l ls) ∧
    (∀ l : Line, isMarker l = true → l ∉ removeTranscript ls) := by
  refine ⟨List.filter_sublist ls, ?_, ?_, ?_⟩
  · intro l hl
    have := (List.mem_filter.mp hl).2
    simpa using this
  · intro l hl
    unfold removeTranscript
    rw [List.count_filter]
    simp [hl]
  · intro l hl hmem
    have := (List.mem_filter.mp hmem).2
    simp [hl] at this

/-- Claim C2 witness: the filter applied to a concrete document with a
caret line, an autoscale line and two plain lines. -/
theorem C2_thm_witness :
    List.Sublist
      (removeTranscript ["^ note".toList, "plain".toList, "autoscale: true".toList, "end".toList])
      ["^ note".toList, "plain".toList, "autoscale: true".toList, "end".toList] ∧
    ("^ note".toList ∉
      removeTranscript ["^ note".toList, "plain".toList, "autoscale: true".toList, "end".toList]) := by
  have h := C2_thm ["^ note".toList, "plain".toList, "autoscale: true".toList, "end".toList]
  exact ⟨h.1, h.2.2.2 ("^ note".toList) (by decide)⟩

/-- Claim C3: a line that starts with the short marker but does not
match the full four field pattern makes foo print exactly one
diagnostic, the literal ERROR prefix followed by the line; the line
passes through the scan unchanged, the clock does not advance, and the
scan continues over the remaining lines. -/
theorem C3_thm (c : Nat) (line : Line) (rest : List Line)
    (hm : matchTimed line = none) (hs : startsTimedMark line = true) :
    foo line = (none, line, ["ERROR: ".toList ++ line]) ∧
    stepLine c line = (c, line) ∧
    scanFrom c (line :: rest) = (line :: (scanFrom c rest).1, (scanFrom c rest).2) := by
  have hstep := stepLine_of_no_match c line hm
  refine ⟨by simp [foo, hm, hs], hstep, ?_⟩
  simp [scanFrom, hstep]

/-- Claim C3 witness: the malformed line of the spec example, with a
non numeric second field, at clock 7 with one following line. -/
theorem C3_thm_witness :
    foo ("^ (1:2, abc)".toList) =
      (none, "^ (1:2, abc)".toList, ["ERROR: ^ (1:2, abc)".toList]) ∧
    stepLine 7 ("^ (1:2, abc)".toList) = (7, "^ (1:2, abc)".toList) := by
  have h := C3_thm 7 ("^ (1:2, abc)".toList) ["tail".toList] rfl rfl
  refine ⟨?_, h.2.1⟩
  rw [h.1]
  decide

/-- Claim C4, counterexample: the line with both end time fields zero
matches the valid timed pattern, yet starting from clock 0 the clock
does not strictly increase there, so the claimed strict increase at
every matching line fails. -/
theorem C4_cex :
    matchTimed ("^ (0:00, 0:00)".toList) = some (['0'], ['0', '0']) ∧
    (stepLine 0 ("^ (0:00, 0:00)".toList)).1 = 0 := by
  exact ⟨rfl, rfl⟩

/-- Claim C4 (amended): the clock starts at 0 through updateTime, is
non decreasing at every step and across any scan, increases by exactly
the duration of groups 3 and 4 at each line matching the valid timed
pattern (strictly when that duration is positive), and is unchanged at
every line the pattern does not match. -/
theorem C4_thm (c : Nat) (line : Line) (ls : List Line) :
    c ≤ (stepLine c line).1 ∧
    c ≤ (scanFrom c ls).2 ∧
    (updateTime ls).2 = (scanFrom 0 ls).2 ∧
    (∀ g3 g4 : Line, matchTimed line = some (g3, g4) →
      (stepLine c line).1 = c + (digitsVal g3 * 60 + digitsVal g4) ∧
      (0 < digitsVal g3 * 60 + digitsVal g4 → c < (stepLine c line).1)) ∧
    (matchTimed line = none → (stepLine c line).1 = c) := by
  refine ⟨stepLine_clock_le c line, scanFrom_clock_le c ls, rfl, ?_, ?_⟩
  · intro g3 g4 hm
    have hf := foo_of_matchTimed line g3 g4 hm
    by_cases hz : digitsVal g3 * 60 + digitsVal g4 = 0
    · exact ⟨by simp [stepLine, hf, hz], fun h => absurd hz (by omega)⟩
    · have he : (stepLine c line).1 = c + (digitsVal g3 * 60 + digitsVal g4) := by
        simp [stepLine, hf, hz]
      exact ⟨he, fun h => by omega⟩
  · intro hm
    rw [stepLine_of_no_match c line hm]

/-- Claim C4 witness: the amended statement applied at clock 5 to a
line of duration 2. -/
theorem C4_thm_witness :
    (stepLine 5 ("^ (0:00, 0:02)".toList)).1 =
      5 + (digitsVal ['0'] * 60 + digitsVal ['0', '2']) ∧
    5 < (stepLine 5 ("^ (0:00, 0:02)".toList)).1 := by
  have h := (C4_thm 5 ("^ (0:00, 0:02)".toList) []).2.2.2.1 ['0'] ['0', '2'] rfl
  exact ⟨h.1, h.2 (by decide)⟩

/-- Claim C5: on the three line example the normalizer returns the
same three lines, the clock is 90 after the first line and the final
clock is 135. -/
theorem C5_thm :
    updateTime ["^ (0:00, 1:30) intro".toList, "some text".toList,
        "^ (1:30, 0:45) next".toList] =
      (["^ (0:00, 1:30) intro".toList, "some text".toList,
        "^ (1:30, 0:45) next".toList], 135) ∧
    stepLine 0 ("^ (0:00, 1:30) intro".toList) = (90, "^ (0:00, 1:30) intro".toList) ∧
    stepLine 90 ("some text".toList) = (90, "some text".toList) ∧
    stepLine 90 ("^ (1:30, 0:45) next".toList) = (135, "^ (1:30, 0:45) next".toList) := by
  exact ⟨rfl, rfl, rfl, rfl⟩

/-- Claim C6: the normalizer returns exactly one output line per input
line, for any starting clock. -/
theorem C6_thm (ls : List Line) :
    (updateTime ls).1.length = ls.length ∧
    ∀ c : Nat, (scanFrom c ls).1.length = ls.length := by
  exact ⟨scanFrom_length 0 ls, fun c => scanFrom_length c ls⟩

/-- Claim C7: in a rewritten timed line the minutes field is the plain
decimal rendering of clock divided by 60, with no leading zero, and the
seconds field is zero padded to exactly two digits; in particular the
replacement built for a clock of 65 seconds reads 1:05. -/
theorem C7_thm (c : Nat) (d1 d2 d3 d4 rest : Line)
    (h1 : allDigits d1) (h2 : allDigits d2) (h3 : allDigits d3) (h4 : allDigits d4)
    (hdur : digitsVal d3 * 60 + digitsVal d4 ≠ 0) :
    (stepLine c (timedLine d1 d2 d3 d4 rest)).2 =
      timedLine (natChars (c / 60)) (pad2 (c % 60)) d3 d4 rest ∧
    (pad2 (c % 60)).length = 2 ∧
    (c / 60 ≠ 0 → (natChars (c / 60)).head? ≠ some ('0')) ∧
    fmtRepl (65 / 60) (65 % 60) = "^ (1:05".toList := by
  refine ⟨?_, pad2_length (c % 60) (by omega),
    fun h => natChars_head_ne_zero (c / 60) h, rfl⟩
  rw [stepLine_timedLine c d1 d2 d3 d4 rest h1 h2 h3 h4, if_neg hdur]

/-- Claim C7 witness: the statement applied at clock 65, where the
minutes render as 1 and the seconds as 05. -/
theorem C7_thm_witness :
    (stepLine 65 (timedLine ['9'] ['9'] ['0'] ['1'] [])).2 =
      timedLine (natChars (65 / 60)) (pad2 (65 % 60)) ['0'] ['1'] [] ∧
    (pad2 (65 % 60)).length = 2 ∧
    (natChars (65 / 60)).head? ≠ some ('0') := by
  have h := C7_thm 65 ['9'] ['9'] ['0'] ['1'] []
    ⟨by decide, by decide⟩ ⟨by decide, by decide⟩ ⟨by decide, by decide⟩
    ⟨by decide, by decide⟩ (by decide)
  exact ⟨h.1, h.2.1, h.2.2.1 (by decide)⟩

/-- Claim C8: on a document none of whose lines matches either marker
pattern, the filter is the identity. -/
theorem C8_thm (ls : List Line) (h : ∀ l ∈ ls, isMarker l = false) :
    removeTranscript ls = ls := by
  unfold removeTranscript
  rw [List.filter_eq_self]
  intro a ha
  simp [h a ha]

/-- Claim C8 witness: the filter leaves a concrete clean two line
document unchanged. -/
theorem C8_thm_witness :
    removeTranscript ["hello".toList, "world".toList] =
      ["hello".toList, "world".toList] :=
  C8_thm ["hello".toList, "world".toList] (by decide)

/-- Claim C9: a line the full timed pattern does not match is passed
through byte for byte; a line of the full timed shape is either left
unchanged or rewritten with only the two leading digit fields replaced,
so everything from the comma onward, end time fields and trailing
content, is preserved in every case. -/
theorem C9_thm (c : Nat) (line : Line) :
    (matchTimed line = none → (stepLine c line).2 = line) ∧
    (∀ d1 d2 d3 d4 rest : Line,
      allDigits d1 → allDigits d2 → allDigits d3 → allDigits d4 →
      line = timedLine d1 d2 d3 d4 rest →
      (stepLine c line).2 = line ∨
      (stepLine c line).2 = timedLine (natChars (c / 60)) (pad2 (c % 60)) d3 d4 rest) := by
  constructor
  · intro hm
    rw [stepLine_of_no_match c line hm]
  · intro d1 d2 d3 d4 rest h1 h2 h3 h4 hline
    subst hline
    rw [stepLine_timedLine c d1 d2 d3 d4 rest h1 h2 h3 h4]
    by_cases hz : digitsVal d3 * 60 + digitsVal d4 = 0
    · left
      rw [if_pos hz]
    · right
      rw [if_neg hz]

/-- Claim C9 witness: the passthrough applied to a plain line, and the
frame applied to a concrete timed line at clock 3. -/
theorem C9_thm_witness :
    (stepLine 0 ("plain text".toList)).2 = "plain text".toList ∧
    ((stepLine 3 (timedLine ['1'] ['2'] ['3'] ['4'] [])).2 =
        timedLine ['1'] ['2'] ['3'] ['4'] [] ∨
     (stepLine 3 (timedLine ['1'] ['2'] ['3'] ['4'] [])).2 =
        timedLine (natChars (3 / 60)) (pad2 (3 % 60)) ['3'] ['4'] []) := by
  exact ⟨(C9_thm 0 ("plain text".toList)).1 rfl,
    (C9_thm 3 (timedLine ['1'] ['2'] ['3'] ['4'] [])).2 ['1'] ['2'] ['3'] ['4'] []
      ⟨by decide, by decide⟩ ⟨by decide, by decide⟩ ⟨by decide, by decide⟩
      ⟨by decide, by decide⟩ rfl⟩

/-- Claim C10: a line matching the full timed pattern whose duration
is zero is classified by foo with time zero and no diagnostic, and the
scan passes it through unchanged without advancing the clock. -/
theorem C10_thm (c : Nat) (line g3 g4 : Line)
    (hm : matchTimed line = some (g3, g4))
    (hz : digitsVal g3 * 60 + digitsVal g4 = 0) :
    foo line = (some 0, line, []) ∧ stepLine c line = (c, line) := by
  have hf := foo_of_matchTimed line g3 g4 hm
  rw [hz] at hf
  exact ⟨hf, by simp [stepLine, hf]⟩

/-- Claim C10 witness: the zero duration line with start 1:00 at
clock 42. -/
theorem C10_thm_witness :
    foo ("^ (1:00, 0:00)".toList) = (some 0, "^ (1:00, 0:00)".toList, []) ∧
    stepLine 42 ("^ (1:00, 0:00)".toList) = (42, "^ (1:00, 0:00)".toList) :=
  C10_thm 42 ("^ (1:00, 0:00)".toList) ['0'] ['0', '0'] rfl rfl
